import Mathlib

/-!
Verification of the perfSONAR crawler (`src/bin/map.go`) against its
natural-language specification.  The Go source is shallowly embedded:
pure fragments become Lean functions, the effect of each function on the
process state (output queues, dedup cache, spawned workers) is made
explicit, remote I/O is abstracted into environment records, and the
concurrent parts are given small-step interleaving semantics.
-/

namespace PsSplunk

/-- Models Go `strings.HasPrefix`-style matching at the front of a char
list: `leadsWith hay pat` is true when `pat` occurs at the start of
`hay`. Used only as a building block for `strContains`. -/
def leadsWith : List Char → List Char → Bool
  | _, [] => true
  | [], _ :: _ => false
  | a :: as, b :: bs => a == b && leadsWith as bs

/-- Substring occurrence on char lists (building block for Go
`strings.Contains`). -/
def hasSubList : List Char → List Char → Bool
  | hay, pat =>
    if leadsWith hay pat then true
    else match hay with
      | [] => false
      | _ :: t => hasSubList t pat

/-- Models Go `strings.Contains(s, sub)`. -/
def strContains (s sub : String) : Bool :=
  hasSubList s.data sub.data

/-- Models the IPv6 rewrite at the top of `dedup` (map.go:61-64):
`if strings.Contains(host, ":") { host = "[" + host + "]" }`. -/
def bracketize (host : String) : String :=
  if strContains host ":" then "[" ++ host ++ "]" else host

/-- Models the edge-record construction at map.go:66: the JSON line is
built by plain string concatenation with no escaping of `host` or
`origin`. -/
def edgeRecord (host origin : String) : String :=
  "\x7b\"address\":\"" ++ host ++ "\",\"origin\":\"" ++ origin ++ "\"\x7d\n"

/-- Process-level state touched by `dedup` (map.go:30-44): the three
output queues (`links`, `summaries`, `results`), the dedup cache map
(represented by its set of keys), and the list of hosts for which a
worker goroutine was ever started (`go worker(host)`, map.go:75),
in order of spawning. -/
structure SysState where
  links : List String
  summaries : List String
  results : List String
  cache : List String
  workers : List String
deriving DecidableEq, Repr

/-- The empty initial process state. -/
def SysState.init : SysState := ⟨[], [], [], [], []⟩

/-- Models `dedup` (map.go:60-77) as one atomic action: bracketize the
host, unconditionally append the edge record to the `links` queue, then
check the cache and, when absent, insert the key and start a worker.
(The non-atomic interleaved version of the same code is `DStep` below.) -/
def dedup (st : SysState) (host origin : String) : SysState :=
  let h := bracketize host
  let st1 := { st with links := st.links ++ [edgeRecord h origin] }
  if h ∈ st1.cache then st1
  else { st1 with cache := h :: st1.cache, workers := st1.workers ++ [h] }

/-- Capacity of each of the three output channels (map.go:42-44:
`make(chan []byte, 10000000)`). -/
def queueCap : Nat := 10000000

/-- Models a send on one of the output channels: it completes
immediately iff the buffer holds fewer than `queueCap` items, and
otherwise blocks (`none`). -/
def chanSend (q : List String) (x : String) : Option (List String) :=
  if q.length < queueCap then some (q ++ [x]) else none

/-- Fixed summary-endpoint URL built by `worker` (map.go:83). -/
def summaryUrl (host : String) : String :=
  "http://" ++ host ++ "/toolkit/services/host.cgi?method=get_summary"

/-- Fixed test-list URL built by `worker` (map.go:102). -/
def testListUrl (host : String) : String :=
  "http://" ++ host ++ "/perfsonar-graphs/graphData.cgi?action=test_list&url=http%3A%2F%2Flocalhost%2Fesmond%2Fperfsonar%2Farchive%2F"

/-- Fixed test-results URL built by `worker` (map.go:126). -/
def testResultsUrl (host : String) : String :=
  "http://" ++ host ++ "/perfsonar-graphs/graphData.cgi?action=tests&url=http%3A%2F%2Flocalhost%2Fesmond%2Fperfsonar%2Farchive%2F"

/-- Models the Go struct `Test` (map.go:47-51). -/
structure Test where
  LastUpdated : Int
  DestinationIP : String
  SourceIP : String
deriving DecidableEq, Repr

/-- Outcome of one `client.Get` as seen by `worker`: either a transport
error carrying the logged message, or a response with a Content-Type
header and a payload describing how the body reads/decodes. -/
inductive GetResult (α : Type) where
  | httpErr (msg : String)
  | resp (contentType : String) (payload : α)
deriving Repr

/-- Remote environment for one `worker` run: the three HTTP exchanges
of map.go:83, 102 and 126.  For step 1 the payload is the
`ioutil.ReadAll` outcome (error message or body); for step 2 the
`json.Decode` outcome into `[]Test` (its error is discarded by the
source, so no message is carried); for step 3 the `json.Decode`
outcome into `[]json.RawMessage` (error message or list of raw
values). -/
structure WorkerEnv where
  summaryResp : GetResult (Except String String)
  testsResp : GetResult (Option (List Test))
  resultsResp : GetResult (Except String (List String))
deriving Repr

/-- Observable effects of one `worker` run: the URLs fetched in order,
the items sent to the `summaries` queue, the `dedup` calls made (host,
origin), the items sent to the `results` queue, and the messages
printed through `errorLogger` in order. -/
structure WorkerOut where
  fetches : List String
  summaries : List String
  dispatches : List (String × String)
  results : List String
  errLogs : List String
deriving DecidableEq, Repr

/-- Models `worker` (map.go:80-148) as a straight-line function of the
remote environment.  Control flow is copied from the source: every
`return` in the Go body corresponds to producing the output record
accumulated so far; `errorLogger.Println` calls append to `errLogs`;
the Content-Type tests use `strings.Contains` against
`"application/json"` (step 1) and `"text/json"` (steps 2 and 3); the
step-2 decode error (map.go:115-117) returns without logging. -/
def worker (host : String) (env : WorkerEnv) : WorkerOut :=
  let f1 := [summaryUrl host]
  match env.summaryResp with
  | .httpErr msg => ⟨f1, [], [], [], [msg]⟩
  | .resp ct body =>
    if ¬ strContains ct "application/json" then ⟨f1, [], [], [], []⟩
    else match body with
      | .error msg => ⟨f1, [], [], [], [msg]⟩
      | .ok summary =>
        let sums := [summary ++ "\n"]
        let f2 := f1 ++ [testListUrl host]
        match env.testsResp with
        | .httpErr msg => ⟨f2, sums, [], [], [msg]⟩
        | .resp ct2 tests? =>
          if ¬ strContains ct2 "text/json" then ⟨f2, sums, [], [], []⟩
          else match tests? with
            | none => ⟨f2, sums, [], [], []⟩
            | some tests =>
              let disp := tests.foldl
                (fun acc t => acc ++ [(t.DestinationIP, host), (t.SourceIP, host)]) []
              let f3 := f2 ++ [testResultsUrl host]
              match env.resultsResp with
              | .httpErr msg => ⟨f3, sums, disp, [], [msg]⟩
              | .resp ct3 res? =>
                if ¬ strContains ct3 "text/json" then ⟨f3, sums, disp, [], []⟩
                else match res? with
                  | .error msg => ⟨f3, sums, disp, [], [msg]⟩
                  | .ok rs => ⟨f3, sums, disp, rs.map (fun r => r ++ "\n"), []⟩

/-- Step 1 of the harvest protocol succeeded: the summary GET returned
without transport error, with a JSON Content-Type, and the body read
succeeded (map.go:83-97). -/
def step1Ok (env : WorkerEnv) : Prop :=
  ∃ ct body, env.summaryResp = .resp ct (.ok body) ∧ strContains ct "application/json" = true

/-- Step 2 of the harvest protocol succeeded: step 1 succeeded, and the
test-list GET returned without transport error, with a `text/json`
Content-Type, and decoded (map.go:102-117). -/
def step2Ok (env : WorkerEnv) : Prop :=
  step1Ok env ∧
    ∃ ct tests, env.testsResp = .resp ct (some tests) ∧ strContains ct "text/json" = true

/-- Occurrence of a one-character pattern is just membership. -/
theorem hasSubList_singleton (l : List Char) (c : Char) :
    hasSubList l [c] = true ↔ c ∈ l := by
  induction l with
  | nil => simp [hasSubList, leadsWith]
  | cons a t ih =>
    by_cases hac : a = c
    · subst hac
      simp [hasSubList, leadsWith]
    · rw [show hasSubList (a :: t) [c] = hasSubList t [c] by
        simp [hasSubList, leadsWith, hac]]
      simp only [ih, List.mem_cons]
      constructor
      · exact Or.inr
      · rintro (hca | hmem)
        · exact absurd hca.symm hac
        · exact hmem

/-- Go `strings.Contains(s, ":")` is membership of the colon character. -/
theorem strContains_colon (s : String) :
    strContains s ":" = true ↔ ':' ∈ s.data := by
  have : (":" : String).data = [':'] := rfl
  rw [strContains, this, hasSubList_singleton]

/-- In every branch of `worker`, the first URL fetched is the summary
endpoint of the host the worker was spawned for. -/
theorem worker_fetches_summary_first (host : String) (env : WorkerEnv) :
    (worker host env).fetches.head? = some (summaryUrl host) := by
  rcases env with ⟨s, t, r⟩
  rcases s with msg | ⟨ct, body⟩
  · simp [worker]
  · by_cases hct : strContains ct "application/json" = true
    · rcases body with msg | summary
      · simp [worker, hct]
      · rcases t with msg2 | ⟨ct2, tests?⟩
        · simp [worker, hct]
        · by_cases hct2 : strContains ct2 "text/json" = true
          · rcases tests? with _ | tests
            · simp [worker, hct, hct2]
            · rcases r with msg3 | ⟨ct3, res?⟩
              · simp [worker, hct, hct2]
              · by_cases hct3 : strContains ct3 "text/json" = true
                · rcases res? with msg4 | rs
                  · simp [worker, hct, hct2, hct3]
                  · simp [worker, hct, hct2, hct3]
                · simp [worker, hct, hct2, hct3]
          · simp [worker, hct, hct2]
    · simp [worker, hct]

/-- C4 (confirmed).  Every call to `dedup` appends exactly one
`{address, origin}` entry to the edge (`links`) queue, whatever the
current dedup-cache contents — in particular also when the address is
already cached — and the rest of the state changes only on a cache
miss.  The append happens textually before the cache is consulted
(map.go:66 versus map.go:67); in the atomic model this shows up as the
append being unconditional while cache/workers depend on membership. -/
theorem dedup_appends_one_edge (st : SysState) (host origin : String) :
    (dedup st host origin).links =
      st.links ++ [edgeRecord (bracketize host) origin] := by
  unfold dedup
  by_cases hm : bracketize host ∈ st.cache <;> simp [hm]

/-- C10 (confirmed).  For a host containing a colon, `dedup` rewrites
it once to the bracketed form and that single string is what is
appended as the edge-record address, what keys the dedup cache, and
what the spawned worker uses as the host part of its first URL; a host
that already arrives bracketed still contains a colon, so it is
bracketed again and keyed differently from its unbracketed form. -/
theorem dedup_bracketing_uniform (st : SysState) (host origin : String)
    (h : strContains host ":" = true) :
    (dedup st host origin).links =
      st.links ++ [edgeRecord ("[" ++ host ++ "]") origin] ∧
    (dedup st host origin).cache =
      (if "[" ++ host ++ "]" ∈ st.cache then st.cache
       else ("[" ++ host ++ "]") :: st.cache) ∧
    (dedup st host origin).workers =
      (if "[" ++ host ++ "]" ∈ st.cache then st.workers
       else st.workers ++ ["[" ++ host ++ "]"]) ∧
    (∀ env, (worker ("[" ++ host ++ "]") env).fetches.head? =
      some (summaryUrl ("[" ++ host ++ "]"))) ∧
    bracketize ("[" ++ host ++ "]") = "[" ++ ("[" ++ host ++ "]") ++ "]" ∧
    bracketize ("[" ++ host ++ "]") ≠ bracketize host := by
  have hmem : ':' ∈ host.data := (strContains_colon host).mp h
  have h2 : strContains ("[" ++ host ++ "]") ":" = true := by
    rw [strContains_colon]
    simp [String.data_append, hmem]
  refine ⟨?_, ?_, ?_, ?_, ?_, ?_⟩
  · unfold dedup
    by_cases hm : "[" ++ host ++ "]" ∈ st.cache <;>
      simp [bracketize, h, hm]
  · unfold dedup
    by_cases hm : "[" ++ host ++ "]" ∈ st.cache <;>
      simp [bracketize, h, hm]
  · unfold dedup
    by_cases hm : "[" ++ host ++ "]" ∈ st.cache <;>
      simp [bracketize, h, hm]
  · intro env
    exact worker_fetches_summary_first _ env
  · simp [bracketize, h2]
  · intro heq
    rw [show bracketize ("[" ++ host ++ "]") = "[" ++ ("[" ++ host ++ "]") ++ "]" by
          simp [bracketize, h2],
        show bracketize host = "[" ++ host ++ "]" by simp [bracketize, h]] at heq
    have hlen := congrArg (fun s : String => s.data.length) heq
    have e1 : ("[" : String).data.length = 1 := rfl
    have e2 : ("]" : String).data.length = 1 := rfl
    simp only [String.data_append, List.length_append, e1, e2] at hlen
    omega

/-- C10 witness: instantiation at the IPv6 host `::1`. -/
theorem dedup_bracketing_uniform_witness :
    (dedup SysState.init "::1" "o").links = [edgeRecord "[::1]" "o"] ∧
    bracketize "[::1]" ≠ bracketize "::1" := by
  have h := dedup_bracketing_uniform SysState.init "::1" "o" (by decide)
  exact ⟨by simpa [SysState.init] using h.1, h.2.2.2.2.2⟩

/-- C7 counterexample: with the buffer at its capacity of 10,000,000
items a send on an output channel does not complete (the producer
blocks), refuting "an enqueue by a producer always succeeds immediately
regardless of how many items are already queued". -/
theorem chanSend_full_blocks :
    chanSend (List.replicate queueCap "x") "y" = none := by
  simp [chanSend]

/-- C7 (corrected).  Each output queue is bounded with capacity
10,000,000 (not unbounded): a send completes immediately iff the
buffer currently holds fewer than 10,000,000 items, and blocks once
the buffer is full. -/
theorem chanSend_capacity :
    (∀ q x, q.length < queueCap → chanSend q x = some (q ++ [x])) ∧
    (∀ q x, queueCap ≤ q.length → chanSend q x = none) := by
  constructor
  · intro q x hlt
    simp [chanSend, hlt]
  · intro q x hge
    simp [chanSend, Nat.not_lt.mpr hge]

/-- C7 witness: a send on an empty queue completes. -/
theorem chanSend_capacity_witness :
    chanSend [] "e" = some ["e"] :=
  chanSend_capacity.1 [] "e" (by decide)

/-- Appending distinct suffixes to the same `http://host` base yields
distinct URLs. -/
theorem url_suffix_ne (host a b : String) (hne : a.data ≠ b.data) :
    "http://" ++ host ++ a ≠ "http://" ++ host ++ b := by
  intro heq
  have hd := congrArg String.data heq
  simp only [String.data_append] at hd
  exact hne (List.append_cancel_left hd)

/-- The three per-host URLs are pairwise distinct for every host. -/
theorem worker_urls_distinct (host : String) :
    testListUrl host ≠ summaryUrl host ∧
    testResultsUrl host ≠ summaryUrl host ∧
    testResultsUrl host ≠ testListUrl host := by
  refine ⟨url_suffix_ne host _ _ ?_, url_suffix_ne host _ _ ?_,
    url_suffix_ne host _ _ ?_⟩ <;> decide

/-- C5 (confirmed).  If step 1 of the harvest protocol fails for a
host — transport error (which covers timeouts) or a Content-Type
without `application/json` — then the worker fetches nothing beyond
the summary URL (steps 2 and 3 never execute) and writes nothing to
the summaries or results queues and makes no dispatch; more generally
the test-list URL is only ever fetched after step 1 fully succeeded,
and the results URL only after step 2 succeeded as well. -/
theorem worker_short_circuit :
    (∀ host env,
        ((∃ msg, env.summaryResp = .httpErr msg) ∨
          (∃ ct p, env.summaryResp = .resp ct p ∧
            strContains ct "application/json" = false)) →
        (worker host env).fetches = [summaryUrl host] ∧
        (worker host env).summaries = [] ∧
        (worker host env).results = [] ∧
        (worker host env).dispatches = []) ∧
    (∀ host env, testListUrl host ∈ (worker host env).fetches → step1Ok env) ∧
    (∀ host env, testResultsUrl host ∈ (worker host env).fetches → step2Ok env) := by
  refine ⟨?_, ?_, ?_⟩
  · rintro host ⟨s, t, r⟩ (⟨msg, hs⟩ | ⟨ct, p, hs, hct⟩) <;> subst hs
    · simp [worker]
    · simp [worker, hct]
  · rintro host ⟨s, t, r⟩ hmem
    rcases s with msg | ⟨ct, body⟩
    · simp [worker] at hmem
      exact absurd hmem (worker_urls_distinct host).1
    · by_cases hct : strContains ct "application/json" = true
      · rcases body with msg | summary
        · simp [worker, hct] at hmem
          exact absurd hmem (worker_urls_distinct host).1
        · exact ⟨ct, summary, rfl, hct⟩
      · simp [worker, Bool.not_eq_true _ ▸ hct] at hmem
        · exact absurd hmem (worker_urls_distinct host).1
  · rintro host ⟨s, t, r⟩ hmem
    rcases s with msg | ⟨ct, body⟩
    · simp [worker] at hmem
      exact absurd hmem (worker_urls_distinct host).2.1
    · by_cases hct : strContains ct "application/json" = true
      · rcases body with msg | summary
        · simp [worker, hct] at hmem
          exact absurd hmem (worker_urls_distinct host).2.1
        · rcases t with msg2 | ⟨ct2, tests?⟩
          · simp [worker, hct] at hmem
            rcases hmem with h1 | h2
            · exact absurd h1 (worker_urls_distinct host).2.1
            · exact absurd h2 (worker_urls_distinct host).2.2
          · by_cases hct2 : strContains ct2 "text/json" = true
            · rcases tests? with _ | tests
              · simp [worker, hct, hct2] at hmem
                rcases hmem with h1 | h2
                · exact absurd h1 (worker_urls_distinct host).2.1
                · exact absurd h2 (worker_urls_distinct host).2.2
              · exact ⟨⟨ct, summary, rfl, hct⟩, ct2, tests, rfl, hct2⟩
            · simp [worker, hct, hct2] at hmem
              rcases hmem with h1 | h2
              · exact absurd h1 (worker_urls_distinct host).2.1
              · exact absurd h2 (worker_urls_distinct host).2.2
      · simp [worker, hct] at hmem
        exact absurd hmem (worker_urls_distinct host).2.1

/-- C5 witness: a worker whose summary GET fails with a transport
error fetches only the summary URL and emits nothing. -/
theorem worker_short_circuit_witness :
    (worker "10.0.0.9" ⟨.httpErr "boom", .httpErr "x", .httpErr "x"⟩).fetches =
      [summaryUrl "10.0.0.9"] ∧
    (worker "10.0.0.9" ⟨.httpErr "boom", .httpErr "x", .httpErr "x"⟩).summaries = [] ∧
    (worker "10.0.0.9" ⟨.httpErr "boom", .httpErr "x", .httpErr "x"⟩).results = [] ∧
    (worker "10.0.0.9" ⟨.httpErr "boom", .httpErr "x", .httpErr "x"⟩).dispatches = [] :=
  worker_short_circuit.1 "10.0.0.9" ⟨.httpErr "boom", .httpErr "x", .httpErr "x"⟩
    (Or.inl ⟨"boom", rfl⟩)

/-- C8 counterexample: two host-local failures that the code abandons
without any error log.  A summary response with a non-JSON
Content-Type (map.go:89-91) makes the worker give up with no log line,
and a step-2 JSON decode failure (map.go:115-117) likewise returns
with no log line, refuting "every non-fatal failure is logged". -/
theorem worker_unlogged_failures :
    (worker "h" ⟨.resp "text/html" (.ok "s"), .httpErr "x", .httpErr "x"⟩).errLogs = [] ∧
    (worker "h" ⟨.resp "text/html" (.ok "s"), .httpErr "x", .httpErr "x"⟩).summaries = [] ∧
    (worker "h" ⟨.resp "text/html" (.ok "s"), .httpErr "x", .httpErr "x"⟩).fetches =
      [summaryUrl "h"] ∧
    (worker "h" ⟨.resp "application/json" (.ok "s"), .resp "text/json" none,
        .httpErr "x"⟩).errLogs = [] ∧
    (worker "h" ⟨.resp "application/json" (.ok "s"), .resp "text/json" none,
        .httpErr "x"⟩).results = [] := by
  refine ⟨?_, ?_, ?_, ?_, ?_⟩ <;> rfl

/-- C8 (corrected).  Which failures `worker` logs: transport errors at
each of the three GETs, the step-1 body-read failure and the step-3
JSON decode failure are logged (with the error message); Content-Type
mismatches at all three steps and the step-2 JSON decode failure
abandon the host silently, with no log entry. -/
theorem worker_logging_behavior :
    (∀ host msg t r,
        (worker host ⟨.httpErr msg, t, r⟩).errLogs = [msg]) ∧
    (∀ host ct p t r, strContains ct "application/json" = false →
        (worker host ⟨.resp ct p, t, r⟩).errLogs = []) ∧
    (∀ host ct msg t r, strContains ct "application/json" = true →
        (worker host ⟨.resp ct (.error msg), t, r⟩).errLogs = [msg]) ∧
    (∀ host ct body msg r, strContains ct "application/json" = true →
        (worker host ⟨.resp ct (.ok body), .httpErr msg, r⟩).errLogs = [msg]) ∧
    (∀ host ct body ct2 p2 r, strContains ct "application/json" = true →
        strContains ct2 "text/json" = false →
        (worker host ⟨.resp ct (.ok body), .resp ct2 p2, r⟩).errLogs = []) ∧
    (∀ host ct body ct2 r, strContains ct "application/json" = true →
        strContains ct2 "text/json" = true →
        (worker host ⟨.resp ct (.ok body), .resp ct2 none, r⟩).errLogs = []) ∧
    (∀ host ct body ct2 tests msg, strContains ct "application/json" = true →
        strContains ct2 "text/json" = true →
        (worker host ⟨.resp ct (.ok body), .resp ct2 (some tests),
          .httpErr msg⟩).errLogs = [msg]) ∧
    (∀ host ct body ct2 tests ct3 p3, strContains ct "application/json" = true →
        strContains ct2 "text/json" = true → strContains ct3 "text/json" = false →
        (worker host ⟨.resp ct (.ok body), .resp ct2 (some tests),
          .resp ct3 p3⟩).errLogs = []) ∧
    (∀ host ct body ct2 tests ct3 msg, strContains ct "application/json" = true →
        strContains ct2 "text/json" = true → strContains ct3 "text/json" = true →
        (worker host ⟨.resp ct (.ok body), .resp ct2 (some tests),
          .resp ct3 (.error msg)⟩).errLogs = [msg]) ∧
    (∀ host ct body ct2 tests ct3 rs, strContains ct "application/json" = true →
        strContains ct2 "text/json" = true → strContains ct3 "text/json" = true →
        (worker host ⟨.resp ct (.ok body), .resp ct2 (some tests),
          .resp ct3 (.ok rs)⟩).errLogs = []) := by
  refine ⟨?_, ?_, ?_, ?_, ?_, ?_, ?_, ?_, ?_, ?_⟩ <;>
    intros <;> simp_all [worker]

/-- C8 witness: a wrong Content-Type at step 1 produces no error log,
while a transport error at step 1 logs its message. -/
theorem worker_logging_behavior_witness :
    (worker "h" ⟨.resp "text/plain" (.ok "s"), .httpErr "x", .httpErr "x"⟩).errLogs = [] ∧
    (worker "h2" ⟨.httpErr "timeout", .httpErr "x", .httpErr "x"⟩).errLogs = ["timeout"] :=
  ⟨worker_logging_behavior.2.1 "h" "text/plain" (.ok "s") (.httpErr "x") (.httpErr "x")
      (by decide),
    worker_logging_behavior.1 "h2" "timeout" (.httpErr "x") (.httpErr "x")⟩

/-- Characters allowed in a URL scheme after the first (Go
`net/url.getScheme`): letters, digits, `+`, `-`, `.`. -/
def isSchemeChar (c : Char) : Bool :=
  c.isAlpha || c.isDigit || c == '+' || c == '-' || c == '.'

/-- Models the scheme-stripping step of Go `net/url.getScheme`: when
the input starts with a letter followed by scheme characters and a
colon, the scheme and colon are removed and the flag records that a
scheme was present; otherwise the input is unchanged (the error case
of a leading colon is handled by `urlParse`). -/
def stripScheme (s : List Char) : Bool × List Char :=
  let t := s.takeWhile isSchemeChar
  match s.drop t.length with
  | ':' :: rest =>
    if (s.head?.elim false Char.isAlpha) then (true, rest) else (false, s)
  | _ => (false, s)

/-- Drops an optional `userinfo@` prefix from an authority component,
keeping what follows the last `@` (Go `net/url.parseAuthority`).  The
validation Go applies to the userinfo itself is not modelled, which is
why `urlModelled` excludes `@`. -/
def afterLastAt (l : List Char) : List Char :=
  (l.reverse.takeWhile (fun c => c ≠ '@')).reverse

/-- Index of the last occurrence of a character. -/
def lastIdxOf (c : Char) : List Char → Option Nat
  | [] => none
  | a :: t =>
    match lastIdxOf c t with
    | some j => some (j + 1)
    | none => if a = c then some 0 else none

/-- Index of the first occurrence of a character. -/
def firstIdxOf (c : Char) : List Char → Option Nat
  | [] => none
  | a :: t => if a = c then some 0 else (firstIdxOf c t).map (· + 1)

/-- Models Go `net/url.validOptionalPort`: empty, or a colon followed
by decimal digits only. -/
def validOptionalPort : List Char → Bool
  | [] => true
  | ':' :: digits => digits.all Char.isDigit
  | _ => false

/-- Characters Go accepts unescaped in a host component: the
`unescape(host, encodeHost)` pass rejects any ASCII byte for which
`shouldEscape(c, encodeHost)` holds, i.e. it accepts ASCII
alphanumerics, the unreserved marks `-` `_` `.` `~`, the sub-delims
and host extras (`!` `$` `&` the apostrophe `(` `)` `*` `+` `,` `;`
`=` `:` `[` `]` `<` `>` `"`), and all non-ASCII bytes. -/
def validHostChar (c : Char) : Bool :=
  c.isAlpha || c.isDigit ||
  c = '-' || c = '_' || c = '.' || c = '~' ||
  c = '!' || c = '$' || c = '&' || c.toNat = 39 || c = '(' || c = ')' ||
  c = '*' || c = '+' || c = ',' || c = ';' || c = '=' || c = ':' ||
  c = '[' || c = ']' || c = '<' || c = '>' || c = '"' ||
  decide (0x80 ≤ c.toNat)

/-- Models Go `net/url.parseHost` on inputs without percent-escapes:
a bracketed host must have a `]` (the last one, as in the stdlib) and
what follows it must be a valid optional port; otherwise the part
after the last colon, if any, must be a valid optional port; and every
character must be acceptable in a host.  On success Go returns the
host string unchanged (no escapes to decode in the modelled region). -/
def parseHost (host : List Char) : Option (List Char) :=
  match host with
  | '[' :: _ =>
    match lastIdxOf ']' host with
    | none => none
    | some i =>
      if validOptionalPort (host.drop (i + 1)) && host.all validHostChar
      then some host else none
  | _ =>
    match lastIdxOf ':' host with
    | none => if host.all validHostChar then some host else none
    | some i =>
      if validOptionalPort (host.drop i) && host.all validHostChar
      then some host else none

/-- Region of locator strings on which `urlParse` below claims
fidelity to Go `net/url.Parse`: no percent-escapes (escape validation
and decoding are not modelled) and no `@` (userinfo validation is not
modelled).  The C6 theorem carries this as a hypothesis. -/
def urlModelled (s : String) : Bool :=
  s.data.all (fun c => c ≠ '%' && c ≠ '@')

/-- Models the `Host` field computed by Go `net/url.Parse`, the only
part of the parse that `processCache` (map.go:201-207) consumes; the
stdlib is external to this repository.  Following the stdlib: the
fragment is split off at the first `#`; a control byte in the
remainder is an error; a leading colon is a missing protocol scheme;
after removing an optional scheme, a `//` prefix introduces the
authority, cut at the first `/` or `?` (Go splits the query off before
the authority), with an optional `userinfo@` prefix dropped and the
host validated by `parseHost`; without `//`, a scheme-bearing or
slash-leading remainder has an empty host, and a scheme-less first
segment (up to `/` or `?`) containing a colon is an error.  `none`
models any error return.  Faithful on the `urlModelled` region. -/
def urlParse (s : String) : Option String :=
  let u := s.data.takeWhile (fun c => c ≠ '#')
  if u.any (fun c => c.val < 0x20 || c.val = 0x7f) then none
  else if u.head? = some ':' then none
  else
    match stripScheme u with
    | (stripped, rest) =>
      match rest with
      | '/' :: '/' :: auth0 =>
        match parseHost (afterLastAt
            (auth0.takeWhile (fun c => ¬(c = '/' ∨ c = '?')))) with
        | none => none
        | some h => some ⟨h⟩
      | _ =>
        if stripped then some ""
        else if ':' ∈ rest.takeWhile (fun c => ¬(c = '/' ∨ c = '?')) then none
        else some ""

/-- Models Go `net.SplitHostPort` (also external stdlib, called at
map.go:209), following the stdlib algorithm: the port starts after the
last colon, which must exist; a leading `[` must be matched by a `]`
immediately before that colon; stray colons or brackets are errors.
`none` models any of its error returns (in particular
"missing port in address" when the input has no colon). -/
def splitHostPort (hp : String) : Option (String × String) :=
  match lastIdxOf ':' hp.data with
  | none => none
  | some i =>
    match hp.data with
    | '[' :: _ =>
      match firstIdxOf ']' hp.data with
      | none => none
      | some e =>
        if e + 1 = hp.data.length then none
        else if e + 1 = i then
          if '[' ∈ hp.data.drop 1 then none
          else if ']' ∈ hp.data.drop (e + 1) then none
          else some (⟨(hp.data.drop 1).take (e - 1)⟩, ⟨hp.data.drop (i + 1)⟩)
        else none
    | _ =>
      if ':' ∈ hp.data.take i then none
      else if '[' ∈ hp.data then none
      else if ']' ∈ hp.data then none
      else some (⟨hp.data.take i⟩, ⟨hp.data.drop (i + 1)⟩)

/-- Observable effects of one `processCache` run: the `getIP(host,
origin)` resolution calls made, in order, and the number of
`errorLogger.Println` calls. -/
structure ProcOut where
  resolves : List (String × String)
  errLogs : Nat
deriving DecidableEq, Repr

/-- Models `processCache` (map.go:196-218): for each record, parse its
first field as a URL (error: log and skip); when the `Host` component
is non-empty, split host and port (error: log and skip) and pass the
host to resolution; records with an empty `Host` are skipped silently. -/
def processCache (records : List (List String)) (origin : String) : ProcOut :=
  records.foldl
    (fun acc record =>
      match urlParse (record.headD "") with
      | none => { acc with errLogs := acc.errLogs + 1 }
      | some host =>
        if host ≠ "" then
          match splitHostPort host with
          | none => { acc with errLogs := acc.errLogs + 1 }
          | some (shost, _port) =>
            { acc with resolves := acc.resolves ++ [(shost, origin)] }
        else acc)
    ⟨[], 0⟩

/-- A character that never occurs in a list has no last index. -/
theorem lastIdxOf_eq_none (c : Char) (l : List Char) (h : c ∉ l) :
    lastIdxOf c l = none := by
  induction l with
  | nil => rfl
  | cons a t ih =>
    have hat : c ∉ t := fun hm => h (List.mem_cons_of_mem a hm)
    have hac : ¬ a = c := fun he => h (he ▸ List.mem_cons_self a t)
    simp [lastIdxOf, ih hat, hac]

/-- C6 counterexample: the locator `http://10.0.0.1/path` parses to
the non-empty host `10.0.0.1`, yet `processCache` passes nothing to
resolution and logs one error, because `SplitHostPort` fails on a host
with no explicit port — refuting "this succeeds whether or not the
host component carries an explicit port". -/
theorem processCache_portless_dropped :
    urlModelled "http://10.0.0.1/path" = true ∧
    urlParse "http://10.0.0.1/path" = some "10.0.0.1" ∧
    ("10.0.0.1" : String) ≠ "" ∧
    processCache [["http://10.0.0.1/path"]] "o" = ⟨[], 1⟩ := by
  refine ⟨by decide, rfl, by decide, rfl⟩

/-- C6 (corrected).  For a record whose locator lies in the modelled
region of `net/url.Parse` (no percent-escapes, no userinfo) and parses
with a host component: when `SplitHostPort` succeeds (an explicit port
is present) the port is stripped and the host is passed to resolution;
when the host carries no colon at all, `SplitHostPort` fails, the
error is logged and the record is skipped; records with an empty host
component are dropped silently without error. -/
theorem processCache_port_behavior :
    (∀ loc origin h p hp, urlModelled loc = true →
        urlParse loc = some hp → splitHostPort hp = some (h, p) →
        processCache [[loc]] origin = ⟨[(h, origin)], 0⟩) ∧
    (∀ loc origin hp, urlModelled loc = true →
        urlParse loc = some hp → hp ≠ "" → splitHostPort hp = none →
        processCache [[loc]] origin = ⟨[], 1⟩) ∧
    (∀ loc origin, urlModelled loc = true → urlParse loc = some "" →
        processCache [[loc]] origin = ⟨[], 0⟩) ∧
    (∀ hp : String, ':' ∉ hp.data → splitHostPort hp = none) := by
  refine ⟨?_, ?_, ?_, ?_⟩
  · intro loc origin h p hp _hm hu hs
    have hne : hp ≠ "" := by
      rintro rfl
      rw [show splitHostPort "" = none from rfl] at hs
      exact Option.noConfusion hs
    simp [processCache, hu, hne, hs]
  · intro loc origin hp _hm hu hne hs
    simp [processCache, hu, hne, hs]
  · intro loc origin _hm hu
    simp [processCache, hu]
  · intro hp hnc
    rw [splitHostPort, lastIdxOf_eq_none ':' hp.data hnc]

/-- C6 witness: a locator with an explicit port is stripped to its
host and passed on with the origin of the record. -/
theorem processCache_port_behavior_witness :
    processCache [["http://10.0.0.2:8080/x"]] "org" = ⟨[("10.0.0.2", "org")], 0⟩ :=
  processCache_port_behavior.1 "http://10.0.0.2:8080/x" "org" "10.0.0.2" "8080"
    "10.0.0.2:8080" (by decide) rfl rfl

/-- Tar entry kinds distinguished by the switch in `getCache`
(map.go:252-270). -/
inductive TarType where
  | reg
  | dir
  | other
deriving DecidableEq, Repr

/-- One tar header successfully returned by `tarReader.Next`, plus,
for regular files, the outcome of reading the entry as a
pipe-delimited table (`csv.ReadAll`, map.go:255-258): `none` is a
parse error, `some records` the parsed rows. -/
structure TarEntry where
  typeflag : TarType
  name : String
  parseResult : Option (List (List String))
deriving DecidableEq, Repr

/-- Remote/container environment for one `getCache` run: whether the
archive fetch, the body read, or the gzip-header read fails, the tar
headers read before end of archive, and whether `tar.Next` returns a
non-EOF error after them. -/
structure CacheEnv where
  fetchErr : Bool
  readErr : Bool
  gzipErr : Bool
  entries : List TarEntry
  tarErr : Bool
deriving DecidableEq, Repr

/-- Outcome of `getCache`.  `fatal` models `errorLogger.Fatal`, which
exits the whole process (map.go:226, 231, 236, 248); `done` carries
the `processCache` tasks spawned — each a record table paired with its
origin string `"cache," + name + "," + url` (map.go:265) — and the
number of non-fatal logged table-parse failures (map.go:260). -/
inductive CacheOutcome where
  | fatal
  | done (spawned : List (List (List String) × String)) (errLogs : Nat)
deriving DecidableEq, Repr

/-- Effect of one tar entry on the accumulated (spawned tasks, error
log count) pair, copied from the switch in map.go:252-270: a regular
file either logs a parse failure and is skipped, or spawns a
`processCache` task; directories are skipped; other entry types fall
through the switch (the `break` at map.go:269 leaves only the switch)
and the loop continues. -/
def tarStep (cacheUrl : String)
    (acc : List (List (List String) × String) × Nat) (e : TarEntry) :
    List (List (List String) × String) × Nat :=
  match e.typeflag with
  | .reg =>
    match e.parseResult with
    | none => (acc.1, acc.2 + 1)
    | some records =>
      (acc.1 ++ [(records, "cache," ++ e.name ++ "," ++ cacheUrl)], acc.2)
  | .dir => acc
  | .other => acc

/-- Models `getCache` (map.go:221-272): any failure of the archive
fetch, the body read, the gzip header, or a non-EOF tar read is
`errorLogger.Fatal` and aborts the process; only table-parse failures
inside the archive are logged and skipped. -/
def getCache (cacheUrl : String) (env : CacheEnv) : CacheOutcome :=
  if env.fetchErr then .fatal
  else if env.readErr then .fatal
  else if env.gzipErr then .fatal
  else
    let folded := env.entries.foldl (tarStep cacheUrl) ([], 0)
    if env.tarErr then .fatal else .done folded.1 folded.2

/-- Folding one tar entry from a shifted error count shifts the final
error count and nothing else. -/
theorem tarStep_count_shift (cacheUrl : String) (e : TarEntry)
    (s : List (List (List String) × String)) (n : Nat) :
    tarStep cacheUrl (s, n + 1) e =
      ((tarStep cacheUrl (s, n) e).1, (tarStep cacheUrl (s, n) e).2 + 1) := by
  rcases e with ⟨tf, name, pr⟩
  cases tf <;> cases pr <;> simp [tarStep]

/-- Folding a tar-entry list from a shifted error count shifts the
final error count and nothing else. -/
theorem tarFold_count_shift (cacheUrl : String) (entries : List TarEntry) :
    ∀ s n, entries.foldl (tarStep cacheUrl) (s, n + 1) =
      ((entries.foldl (tarStep cacheUrl) (s, n)).1,
        (entries.foldl (tarStep cacheUrl) (s, n)).2 + 1) := by
  induction entries with
  | nil => intro s n; rfl
  | cons e t ih =>
    intro s n
    rw [List.foldl_cons, List.foldl_cons, tarStep_count_shift]
    rcases hs : tarStep cacheUrl (s, n) e with ⟨s2, n2⟩
    exact ih s2 n2

/-- C3 counterexample: with an archive whose fetch fails (or whose
gzip decompression fails), `getCache` reaches `errorLogger.Fatal` and
the process aborts, refuting "such failures never abort the whole run;
only that archive is skipped". -/
theorem getCache_fetch_failure_fatal :
    getCache "http://archive.example/a.tgz" ⟨true, false, false, [], false⟩ =
      .fatal ∧
    getCache "http://archive.example/a.tgz" ⟨false, false, true, [], false⟩ =
      .fatal :=
  ⟨rfl, rfl⟩

/-- C3 (corrected).  A parse failure for one table within an archive
is archive-local: it is logged and only that table is skipped, the run
continuing with the same spawned tasks.  But a fetch failure, a
body-read failure, a decompression failure, or a tar-read failure for
an archive is fatal to the whole run (`errorLogger.Fatal`), not merely
archive-local. -/
theorem getCache_failure_policy :
    (∀ url env, env.fetchErr = true ∨ env.readErr = true ∨
        env.gzipErr = true ∨ env.tarErr = true →
        getCache url env = .fatal) ∧
    (∀ url pre post name spawned n,
        getCache url ⟨false, false, false, pre ++ post, false⟩ = .done spawned n →
        getCache url ⟨false, false, false, pre ++ ⟨.reg, name, none⟩ :: post, false⟩ =
          .done spawned (n + 1)) := by
  constructor
  · rintro url ⟨f, r, g, es, t⟩ h
    cases f <;> cases r <;> cases g <;> cases t <;> simp_all [getCache]
  · intro url pre post name spawned n h
    have key : (pre ++ (⟨.reg, name, none⟩ : TarEntry) :: post).foldl
        (tarStep url) ([], 0) =
        (((pre ++ post).foldl (tarStep url) ([], 0)).1,
          ((pre ++ post).foldl (tarStep url) ([], 0)).2 + 1) := by
      rw [List.foldl_append, List.foldl_append, List.foldl_cons]
      rcases List.foldl (tarStep url) ([], 0) pre with ⟨s1, n1⟩
      rw [show tarStep url (s1, n1) ⟨TarType.reg, name, none⟩ = (s1, n1 + 1)
        from rfl]
      exact tarFold_count_shift url post s1 n1
    simp only [getCache, Bool.false_eq_true, if_false, key] at h ⊢
    rcases h2 : List.foldl (tarStep url) ([], 0) (pre ++ post) with ⟨s2, n2⟩
    rw [h2] at h
    simp only [CacheOutcome.done.injEq] at h ⊢
    exact ⟨h.1, by omega⟩

/-- C3 witness: a fetch failure is fatal, and an archive containing a
single unparsable table completes with one logged failure and no
spawned task. -/
theorem getCache_failure_policy_witness :
    getCache "u" ⟨true, false, false, [], false⟩ = .fatal ∧
    getCache "u" ⟨false, false, false, [⟨.reg, "t.psv", none⟩], false⟩ =
      .done [] 1 :=
  ⟨getCache_failure_policy.1 "u" ⟨true, false, false, [], false⟩ (Or.inl rfl),
    getCache_failure_policy.2 "u" [] [] "t.psv" [] 0 rfl⟩

/-- Program counter of one in-flight `dedup` call in the fine-grained
interleaved semantics of map.go:60-77.  `emit` is about to run lines
61-66 (IPv6 rewrite and the unconditional `links` send); `check` is
about to run lines 67-69 (`RLock`, map read, `RUnlock` — an atomic
read, since the read lock only excludes writers); `insert` is the
state of a caller that observed absence and is about to run lines
71-75 (`Lock`, map insert, `Unlock`, `go worker`) — the source
re-checks nothing under the write lock, so this step inserts and
spawns unconditionally. -/
inductive DPhase where
  | emit
  | check
  | insert
  | done
deriving DecidableEq, Repr

/-- One in-flight `dedup` invocation. -/
structure DThread where
  host : String
  origin : String
  phase : DPhase
deriving DecidableEq, Repr

/-- Shared state for two concurrent `dedup` invocations: both thread
states plus the `links` queue, the cache key set and the list of
workers ever spawned. -/
structure DState where
  t1 : DThread
  t2 : DThread
  links : List String
  cache : List String
  workers : List String
deriving DecidableEq, Repr

/-- Interleaved small-step semantics of two concurrent `dedup` calls.
Each constructor advances one thread by one atomic section of
map.go:60-77; lock discipline makes each section atomic but nothing
orders the sections of different threads. -/
inductive DStep : DState → DState → Prop where
  | emit1 (s : DState) (h : s.t1.phase = DPhase.emit) :
      DStep s { s with
        t1 := ⟨bracketize s.t1.host, s.t1.origin, DPhase.check⟩,
        links := s.links ++ [edgeRecord (bracketize s.t1.host) s.t1.origin] }
  | check1 (s : DState) (h : s.t1.phase = DPhase.check) :
      DStep s { s with
        t1 := ⟨s.t1.host, s.t1.origin,
          if s.t1.host ∈ s.cache then DPhase.done else DPhase.insert⟩ }
  | insert1 (s : DState) (h : s.t1.phase = DPhase.insert) :
      DStep s { s with
        t1 := ⟨s.t1.host, s.t1.origin, DPhase.done⟩,
        cache := s.t1.host :: s.cache,
        workers := s.workers ++ [s.t1.host] }
  | emit2 (s : DState) (h : s.t2.phase = DPhase.emit) :
      DStep s { s with
        t2 := ⟨bracketize s.t2.host, s.t2.origin, DPhase.check⟩,
        links := s.links ++ [edgeRecord (bracketize s.t2.host) s.t2.origin] }
  | check2 (s : DState) (h : s.t2.phase = DPhase.check) :
      DStep s { s with
        t2 := ⟨s.t2.host, s.t2.origin,
          if s.t2.host ∈ s.cache then DPhase.done else DPhase.insert⟩ }
  | insert2 (s : DState) (h : s.t2.phase = DPhase.insert) :
      DStep s { s with
        t2 := ⟨s.t2.host, s.t2.origin, DPhase.done⟩,
        cache := s.t2.host :: s.cache,
        workers := s.workers ++ [s.t2.host] }

/-- Reachability under the interleaved `dedup` semantics. -/
def DReach : DState → DState → Prop :=
  Relation.ReflTransGen DStep

/-- Two concurrent `dedup` calls for the same address, both at the
start of the function body, with empty shared state. -/
def dInit : DState :=
  ⟨⟨"10.0.0.1", "o1", DPhase.emit⟩, ⟨"10.0.0.1", "o2", DPhase.emit⟩, [], [], []⟩

/-- C1 (code bug).  There is an interleaving of two concurrent
`dedup` calls naming the same address in which both callers observe
the address absent under the read lock before either inserts, and both
then insert and start a worker: two Harvest Worker tasks are started
for one address, violating at-most-once dispatch.  The schedule is
emit/emit/check/check/insert/insert. -/
theorem dedup_race_two_workers :
    ∃ s : DState, DReach dInit s ∧
      s.t1.phase = DPhase.done ∧ s.t2.phase = DPhase.done ∧
      s.workers.count "10.0.0.1" = 2 := by
  refine ⟨_,
    Relation.ReflTransGen.head (DStep.emit1 dInit rfl)
      (Relation.ReflTransGen.head (DStep.emit2 _ (by decide))
        (Relation.ReflTransGen.head (DStep.check1 _ (by decide))
          (Relation.ReflTransGen.head (DStep.check2 _ (by decide))
            (Relation.ReflTransGen.head (DStep.insert1 _ (by decide))
              (Relation.ReflTransGen.head (DStep.insert2 _ (by decide))
                Relation.ReflTransGen.refl))))), ?_, ?_, ?_⟩
  · decide
  · decide
  · decide

/-- A `processCache` task in the run-level model, carried as the
`dedup` calls its resolution step will make.  For a locator whose host
is already a literal address, `getIP` passes it straight to `dedup`
with the origin of the task (map.go:179, 189-192), so resolution of literal
addresses is the identity. -/
structure ProcTask where
  dispatches : List (String × String)
deriving DecidableEq, Repr

/-- Run-level state for the shutdown barrier of `main` (map.go:294-304):
the `WaitGroup` counter, the pending `getCache` goroutines (each
carried as the `processCache` tasks it will spawn — this models a run
whose archives fetch and unpack successfully), the pending
`processCache` goroutines, the shared `SysState`, the list of spawned
workers that have actually run, and whether `main` has returned from
`wg.Wait` and exited. -/
structure RunState where
  wg : Nat
  cacheTasks : List (List ProcTask)
  procTasks : List ProcTask
  sys : SysState
  workersRun : List String
  exited : Bool
deriving Repr

/-- State right after `main` ran `getCaches` synchronously
(map.go:283-287): one `wg.Add(1)` and one `go getCache` per hints
line, and `main` now blocked in `wg.Wait()` (map.go:303). -/
def initRun (caches : List (List ProcTask)) : RunState :=
  ⟨caches.length, caches, [], SysState.init, [], false⟩

/-- Run-level scheduler steps.  Only `getCache` (map.go:264,
`wg.Add(1)` per table) and `processCache` (map.go:197, deferred
`wg.Done`) touch the `WaitGroup`; `go worker(host)` at map.go:75 never
does, which is the point of claim C2.  Writers drain the queues one
item at a time (map.go:164-169).  `exitMain` fires exactly when the
counter is zero — `wg.Wait` returns and the process exits, abandoning
any goroutines still pending. -/
inductive RunStep : RunState → RunState → Prop where
  | runCache (s : RunState) (c : List ProcTask) (rest : List (List ProcTask))
      (h : s.cacheTasks = c :: rest) :
      RunStep s { s with
        wg := s.wg - 1 + c.length,
        cacheTasks := rest,
        procTasks := s.procTasks ++ c }
  | runProc (s : RunState) (t : ProcTask) (rest : List ProcTask)
      (h : s.procTasks = t :: rest) :
      RunStep s { s with
        sys := t.dispatches.foldl (fun st ho => dedup st ho.1 ho.2) s.sys,
        procTasks := rest,
        wg := s.wg - 1 }
  | runWorker (s : RunState) (host : String) (env : WorkerEnv)
      (h : s.workersRun.count host < s.sys.workers.count host) :
      RunStep s { s with
        workersRun := s.workersRun ++ [host],
        sys := (worker host env).dispatches.foldl
          (fun st ho => dedup st ho.1 ho.2)
          { s.sys with
            summaries := s.sys.summaries ++ (worker host env).summaries,
            results := s.sys.results ++ (worker host env).results } }
  | drainLink (s : RunState) (x : String) (rest : List String)
      (h : s.sys.links = x :: rest) :
      RunStep s { s with sys := { s.sys with links := rest } }
  | drainSummary (s : RunState) (x : String) (rest : List String)
      (h : s.sys.summaries = x :: rest) :
      RunStep s { s with sys := { s.sys with summaries := rest } }
  | drainResult (s : RunState) (x : String) (rest : List String)
      (h : s.sys.results = x :: rest) :
      RunStep s { s with sys := { s.sys with results := rest } }
  | exitMain (s : RunState) (h : s.wg = 0) :
      RunStep s { s with exited := true }

/-- Reachability under the run-level scheduler. -/
def RunReach : RunState → RunState → Prop :=
  Relation.ReflTransGen RunStep

/-- C2 (code bug).  A run with one archive holding one table whose
single record resolves to `10.0.0.1` can exit while the harvest worker
spawned for `10.0.0.1` has not run at all and the edge queue is not
drained: the `WaitGroup` joined by `main` counts only `getCache` and
`processCache` tasks, never workers, so `wg.Wait` returns after the
resolution task finishes regardless of in-flight harvests. -/
theorem run_exits_with_pending_worker :
    ∃ s : RunState,
      RunReach (initRun [[⟨[("10.0.0.1", "cache,f,u")]⟩]]) s ∧
      s.exited = true ∧ s.workersRun = [] ∧
      s.sys.workers = ["10.0.0.1"] ∧ s.sys.links ≠ [] := by
  refine ⟨_,
    Relation.ReflTransGen.head (RunStep.runCache _ _ _ rfl)
      (Relation.ReflTransGen.head (RunStep.runProc _ _ _ rfl)
        (Relation.ReflTransGen.head (RunStep.exitMain _ rfl)
          Relation.ReflTransGen.refl)), ?_, ?_, ?_, ?_⟩
  · decide
  · decide
  · decide
  · decide

/-- JSON insignificant whitespace (RFC 8259, section 2). -/
def isJWs (c : Char) : Bool :=
  c = ' ' || c = '\t' || c = '\n' || c = '\r'

/-- Drops leading JSON whitespace. -/
def skipWs : List Char → List Char
  | [] => []
  | c :: r => if isJWs c then skipWs r else c :: r

/-- Hexadecimal digit (for JSON `\u` escapes). -/
def isHexDigit (c : Char) : Bool :=
  c.isDigit || (decide ('a' ≤ c) && decide (c ≤ 'f')) ||
    (decide ('A' ≤ c) && decide (c ≤ 'F'))

/-- Scans the remainder of a JSON string literal, the opening quote
already consumed (RFC 8259, section 7): unescaped characters must be
at least U+0020 and must not be `"` or `\`; a backslash must begin one
of the eight simple escapes or a `\uXXXX` escape.  Returns the raw
(undecoded) content and the input after the closing quote. -/
def scanJStr : List Char → Option (List Char × List Char)
  | [] => none
  | c :: r =>
    if c = '"' then some ([], r)
    else if c = '\\' then
      match r with
      | [] => none
      | e :: r2 =>
        if e = '"' || e = '\\' || e = '/' || e = 'b' || e = 'f' ||
            e = 'n' || e = 'r' || e = 't' then
          (scanJStr r2).map (fun p => ('\\' :: e :: p.1, p.2))
        else if e = 'u' then
          match r2 with
          | a :: b :: c2 :: d :: r3 =>
            if isHexDigit a && isHexDigit b && isHexDigit c2 && isHexDigit d then
              (scanJStr r3).map
                (fun p => ('\\' :: 'u' :: a :: b :: c2 :: d :: p.1, p.2))
            else none
          | _ => none
        else none
    else if c.toNat < 0x20 then none
    else (scanJStr r).map (fun p => (c :: p.1, p.2))

/-- Scans an optional JSON exponent part (`e`/`E`, optional sign, one
or more digits); anything else is left in place. -/
def scanExpPart : List Char → Option (List Char)
  | [] => some []
  | c :: r =>
    if c = 'e' || c = 'E' then
      match (match r with
             | s :: r2 => if s = '+' || s = '-' then r2 else s :: r2
             | [] => []) with
      | d :: r3 => if d.isDigit then some (r3.dropWhile Char.isDigit) else none
      | [] => none
    else some (c :: r)

/-- Scans an optional JSON fraction part (`.` and one or more digits)
followed by an optional exponent part. -/
def scanFracPart : List Char → Option (List Char)
  | '.' :: r =>
    (match r with
     | d :: r2 => if d.isDigit then scanExpPart (r2.dropWhile Char.isDigit) else none
     | [] => none)
  | s => scanExpPart s

/-- Scans a JSON number (RFC 8259, section 6): optional minus, an
integer part that is `0` or starts with a nonzero digit, optional
fraction, optional exponent. -/
def scanJNum (s : List Char) : Option (List Char) :=
  match (match s with | '-' :: r => r | _ => s) with
  | '0' :: r => scanFracPart r
  | c :: r => if c.isDigit then scanFracPart (r.dropWhile Char.isDigit) else none
  | [] => none

/-- Shape of a parsed JSON value.  Only what the validity check needs
is retained: string contents are kept raw (escapes undecoded), array
elements are discarded, object members keep their raw name and value
shape. -/
inductive JVal where
  | jstr (raw : List Char)
  | jnum
  | jbool
  | jnull
  | jarr
  | jobj (members : List (List Char × JVal))

/-- Parser mode: a plain value; an object body right after `{`; the
member list of an object (first member already known to start);
an array body right after `[`; the element list of an array. -/
inductive PMode where
  | val
  | obj
  | members (acc : List (List Char × JVal))
  | arr
  | elems

/-- Recursive-descent parser for the RFC 8259 value grammar, fuelled
to make the recursion structural.  Fuel is spent when entering a
nested construct or looping to the next member/element, and every such
transition first consumes at least one input character, so any fuel
larger than twice the input length never runs out on a parsable
input. -/
def parseJ : Nat → PMode → List Char → Option (JVal × List Char)
  | 0, _, _ => none
  | fuel + 1, PMode.val, s =>
    match skipWs s with
    | '"' :: r => (scanJStr r).map (fun p => (JVal.jstr p.1, p.2))
    | '\x7b' :: r => parseJ fuel PMode.obj r
    | '[' :: r => parseJ fuel PMode.arr r
    | 't' :: 'r' :: 'u' :: 'e' :: r => some (JVal.jbool, r)
    | 'f' :: 'a' :: 'l' :: 's' :: 'e' :: r => some (JVal.jbool, r)
    | 'n' :: 'u' :: 'l' :: 'l' :: r => some (JVal.jnull, r)
    | c :: r =>
      if c = '-' || c.isDigit then
        (scanJNum (c :: r)).map (fun rest => (JVal.jnum, rest))
      else none
    | [] => none
  | fuel + 1, PMode.obj, s =>
    match skipWs s with
    | '\x7d' :: r => some (JVal.jobj [], r)
    | _ => parseJ fuel (PMode.members []) (skipWs s)
  | fuel + 1, PMode.members acc, s =>
    match s with
    | '"' :: r =>
      match scanJStr r with
      | none => none
      | some (key, r2) =>
        match skipWs r2 with
        | ':' :: r3 =>
          match parseJ fuel PMode.val r3 with
          | none => none
          | some (v, r4) =>
            match skipWs r4 with
            | ',' :: r5 => parseJ fuel (PMode.members (acc ++ [(key, v)])) (skipWs r5)
            | '\x7d' :: r5 => some (JVal.jobj (acc ++ [(key, v)]), r5)
            | _ => none
        | _ => none
    | _ => none
  | fuel + 1, PMode.arr, s =>
    match skipWs s with
    | ']' :: r => some (JVal.jarr, r)
    | _ => parseJ fuel PMode.elems (skipWs s)
  | fuel + 1, PMode.elems, s =>
    match parseJ fuel PMode.val s with
    | none => none
    | some (_, r) =>
      match skipWs r with
      | ',' :: r2 => parseJ fuel PMode.elems (skipWs r2)
      | ']' :: r2 => some (JVal.jarr, r2)
      | _ => none

/-- Whether an object member has the given raw name and a string
value. -/
def memberIsStr (key : List Char) (m : List Char × JVal) : Bool :=
  m.1 == key &&
    (match m.2 with
     | JVal.jstr _ => true
     | _ => false)

/-- Checks that a byte string is one syntactically valid JSON value
per the RFC 8259 grammar followed only by whitespace (which covers the
trailing newline of a newline-delimited record), and that the value is
an object with string-valued members named `address` and `origin`. -/
def edgeJsonOk (s : String) : Bool :=
  match parseJ (2 * s.data.length + 2) PMode.val s.data with
  | some (JVal.jobj ms, rest) =>
    rest.all isJWs && ms.any (memberIsStr ("address").data) &&
      ms.any (memberIsStr ("origin").data)
  | _ => false

/-- A character that needs no JSON escaping inside a string literal:
not the quote, not the backslash, not a control character. -/
def plainChar (c : Char) : Bool :=
  c != '"' && c != '\\' && decide (0x20 ≤ c.toNat)

/-- Scanning a string body made of plain characters stops exactly at
the closing quote. -/
theorem scanJStr_plain (cs rest : List Char)
    (h : ∀ c ∈ cs, plainChar c = true) :
    scanJStr (cs ++ '"' :: rest) = some (cs, rest) := by
  induction cs with
  | nil =>
    rw [List.nil_append]
    unfold scanJStr
    simp
  | cons a t ih =>
    have ha := h a (List.mem_cons_self a t)
    have ht : ∀ c ∈ t, plainChar c = true :=
      fun c hc => h c (List.mem_cons_of_mem a hc)
    simp only [plainChar, Bool.and_eq_true, bne_iff_ne, ne_eq,
      decide_eq_true_eq] at ha
    obtain ⟨⟨h1, h2⟩, h3⟩ := ha
    rw [List.cons_append]
    unfold scanJStr
    simp [h1, h2, Nat.not_lt.mpr h3, ih ht]

/-- Parsing an edge-shaped record whose two string payloads are plain
yields the two-member object, for every sufficient fuel. -/
theorem parse_edge_plain (f : Nat) (hd od rest : List Char)
    (hh : ∀ c ∈ hd, plainChar c = true) (ho : ∀ c ∈ od, plainChar c = true) :
    parseJ (f + 5) PMode.val
      ('\x7b' :: '"' :: 'a' :: 'd' :: 'd' :: 'r' :: 'e' :: 's' :: 's' :: '"' :: ':' :: '"' ::
        (hd ++ ('"' :: ',' :: '"' :: 'o' :: 'r' :: 'i' :: 'g' :: 'i' :: 'n' :: '"' :: ':' :: '"' ::
          (od ++ ('"' :: '\x7d' :: rest))))) =
      some (JVal.jobj [(['a','d','d','r','e','s','s'], JVal.jstr hd),
        (['o','r','i','g','i','n'], JVal.jstr od)], rest) := by
  rw [show f + 5 = f + 4 + 1 from rfl]
  unfold parseJ
  simp [skipWs, isJWs]
  rw [show f + 4 = f + 3 + 1 from rfl]
  unfold parseJ
  simp [skipWs, isJWs]
  rw [show f + 3 = f + 2 + 1 from rfl]
  unfold parseJ
  simp [skipWs, isJWs]
  rw [show ('a' :: 'd' :: 'd' :: 'r' :: 'e' :: 's' :: 's' :: '"' :: ':' :: '"' ::
      (hd ++ ('"' :: ',' :: '"' :: 'o' :: 'r' :: 'i' :: 'g' :: 'i' :: 'n' :: '"' :: ':' :: '"' ::
        (od ++ ('"' :: '\x7d' :: rest)))) : List Char) =
    ['a','d','d','r','e','s','s'] ++ ('"' :: ':' :: '"' ::
      (hd ++ ('"' :: ',' :: '"' :: 'o' :: 'r' :: 'i' :: 'g' :: 'i' :: 'n' :: '"' :: ':' :: '"' ::
        (od ++ ('"' :: '\x7d' :: rest))))) from rfl]
  rw [scanJStr_plain _ _ (by decide)]
  simp [skipWs, isJWs]
  rw [show f + 2 = f + 1 + 1 from rfl]
  unfold parseJ
  simp [skipWs, isJWs]
  rw [scanJStr_plain _ _ hh]
  simp [skipWs, isJWs]
  rw [show ('o' :: 'r' :: 'i' :: 'g' :: 'i' :: 'n' :: '"' :: ':' :: '"' ::
      (od ++ ('"' :: '\x7d' :: rest)) : List Char) =
    ['o','r','i','g','i','n'] ++ ('"' :: ':' :: '"' ::
      (od ++ ('"' :: '\x7d' :: rest))) from rfl]
  rw [scanJStr_plain _ _ (by decide)]
  simp [skipWs, isJWs]
  unfold parseJ
  simp [skipWs, isJWs]
  rw [scanJStr_plain _ _ ho]
  simp [skipWs, isJWs]

/-- C9 counterexample: a test descriptor whose destination address
contains a quote reaches `dedup` unchanged through `worker`
(map.go:121), and the edge record built for it by concatenation
without escaping is not valid JSON, refuting well-formedness "for
every address and origin value that can reach dispatch". -/
theorem edgeRecord_quote_malformed :
    (worker "10.0.0.1" ⟨GetResult.resp "application/json" (Except.ok "s"),
        GetResult.resp "text/json" (some [⟨1, "a\"b", "10.0.0.3"⟩]),
        GetResult.httpErr "x"⟩).dispatches =
      [("a\"b", "10.0.0.1"), ("10.0.0.3", "10.0.0.1")] ∧
    edgeJsonOk (edgeRecord (bracketize "a\"b") "10.0.0.1") = false ∧
    edgeJsonOk (edgeRecord (bracketize "10.0.0.3") "10.0.0.1") = true := by
  exact ⟨rfl, by decide, by decide⟩

/-- C9 (corrected).  Every `dedup` call appends the record
`edgeRecord (bracketize host) origin` to the edge stream, and that
record is a syntactically valid newline-delimited JSON object with
string `address` and `origin` fields whenever the host and origin
contain only characters that need no JSON escaping (no quote, no
backslash, no control character).  Addresses or origins containing
such characters — which can reach `dispatch` via remote test
descriptors or archive entry names — produce malformed records. -/
theorem edgeRecord_plain_valid (st : SysState) (host origin : String)
    (hh : ∀ c ∈ host.data, plainChar c = true)
    (ho : ∀ c ∈ origin.data, plainChar c = true) :
    (dedup st host origin).links =
      st.links ++ [edgeRecord (bracketize host) origin] ∧
    edgeJsonOk (edgeRecord (bracketize host) origin) = true := by
  have hb : ∀ c ∈ (bracketize host).data, plainChar c = true := by
    intro c hcm
    unfold bracketize at hcm
    by_cases hc : strContains host ":" = true
    · rw [if_pos hc] at hcm
      simp only [String.data_append, List.mem_append, List.mem_cons,
        List.not_mem_nil, or_false] at hcm
      rcases hcm with (hcm | hcm) | hcm
      · subst hcm; decide
      · exact hh c hcm
      · subst hcm; decide
    · rw [if_neg hc] at hcm
      exact hh c hcm
  have hdata : (edgeRecord (bracketize host) origin).data =
      '\x7b' :: '"' :: 'a' :: 'd' :: 'd' :: 'r' :: 'e' :: 's' :: 's' :: '"' :: ':' :: '"' ::
        ((bracketize host).data ++ ('"' :: ',' :: '"' :: 'o' :: 'r' :: 'i' :: 'g' :: 'i' :: 'n' ::
          '"' :: ':' :: '"' :: (origin.data ++ ('"' :: '\x7d' :: ['\n'])))) := by
    rw [edgeRecord]
    simp [String.data_append, List.append_assoc]
  constructor
  · unfold dedup
    by_cases hm : bracketize host ∈ st.cache <;> simp [hm]
  · obtain ⟨k, hk⟩ : ∃ k,
        2 * (edgeRecord (bracketize host) origin).data.length + 2 = k + 5 := by
      refine ⟨2 * (edgeRecord (bracketize host) origin).data.length - 3, ?_⟩
      have h27 : 27 ≤ (edgeRecord (bracketize host) origin).data.length := by
        rw [hdata]
        simp [List.length_append]
        omega
      omega
    unfold edgeJsonOk
    rw [hk, hdata,
      parse_edge_plain k (bracketize host).data origin.data ['\n'] hb ho]
    simp [memberIsStr, isJWs]

/-- C9 witness: a plain dotted-quad host and plain origin give a
well-formed edge record appended by `dedup`. -/
theorem edgeRecord_plain_valid_witness :
    (dedup SysState.init "10.0.0.7" "cache,f,u").links =
      [edgeRecord (bracketize "10.0.0.7") "cache,f,u"] ∧
    edgeJsonOk (edgeRecord (bracketize "10.0.0.7") "cache,f,u") = true := by
  have h := edgeRecord_plain_valid SysState.init "10.0.0.7" "cache,f,u"
    (by decide) (by decide)
  exact ⟨by simpa [SysState.init] using h.1, h.2⟩

end PsSplunk
